import Mathlib

/-
Verification development for the FileBackupTool repository (phase2.cpp /
phase3.cpp).  The C++ program is shallowly embedded: `std::string` becomes
`List Char`, `std::map` becomes an association list with first-match lookup
and in-place replacement, `long long` / `time_t` become `Int`, and the
Windows filesystem / CopyFileA / FindFirstFileA environment is represented
by explicit oracle data (success flags and directory outcomes) threaded
through the functions.  Fallible operations return `Option`; `none` models
an uncaught C++ exception (std::stoll on a non-numeric field).
-/

/-- Strings of the C++ program are modelled as lists of characters. -/
abbrev Str := List Char

/-! ### Association-list model of std::map

`mapFind` is `std::map::find`, `mapInsert` is `m[k] = v` (replace the
existing entry, else append), `List.length` is `std::map::size`.  A map
built only by `mapInsert` from the empty list has no duplicate keys,
matching the `std::map` invariant. -/

def mapFind {α : Type} : List (Str × α) → Str → Option α
  | [], _ => none
  | (k, v) :: rest, q => if k = q then some v else mapFind rest q

def mapInsert {α : Type} : List (Str × α) → Str → α → List (Str × α)
  | [], q, v => [(q, v)]
  | (k, w) :: rest, q, v =>
      if k = q then (k, v) :: rest else (k, w) :: mapInsert rest q v

theorem mapFind_mapInsert {α : Type} (m : List (Str × α)) (k q : Str) (v : α) :
    mapFind (mapInsert m k v) q = if k = q then some v else mapFind m q := by
  induction m with
  | nil => by_cases h : k = q <;> simp [mapFind, mapInsert, h]
  | cons hd tl ih =>
      obtain ⟨k', v'⟩ := hd
      by_cases h1 : k' = k
      · subst h1
        by_cases h2 : k' = q <;> simp [mapFind, mapInsert, h2]
      · by_cases h2 : k' = q
        · subst h2
          have : ¬ k = k' := fun h => h1 h.symm
          simp [mapFind, mapInsert, h1, this]
        · simp [mapFind, mapInsert, h1, h2, ih]

theorem mapInsert_absent {α : Type} (m : List (Str × α)) (k : Str) (v : α)
    (h : mapFind m k = none) : mapInsert m k v = m ++ [(k, v)] := by
  induction m with
  | nil => simp [mapInsert]
  | cons hd tl ih =>
      obtain ⟨k', v'⟩ := hd
      by_cases h1 : k' = k
      · simp [mapFind, h1] at h
      · simp [mapFind, h1] at h
        simp [mapInsert, h1, ih h]

theorem mapInsert_length_absent {α : Type} (m : List (Str × α)) (k : Str) (v : α)
    (h : mapFind m k = none) : (mapInsert m k v).length = m.length + 1 := by
  rw [mapInsert_absent m k v h]; simp

/-! ### Decimal rendering and parsing

The C++ program writes `long long` values with `operator<<` (decimal,
optional leading minus) and reads them back with `std::stoll`.  `stollChars`
returns `none` where `std::stoll` would throw (no digit after the optional
sign); the thrown exception is uncaught in the program, so `none` aborts the
surrounding load.  Out-of-range is not modelled (the Lean integers are
unbounded). -/

def digitChar (d : Nat) : Char :=
  match d with
  | 0 => '0' | 1 => '1' | 2 => '2' | 3 => '3' | 4 => '4'
  | 5 => '5' | 6 => '6' | 7 => '7' | 8 => '8' | _ => '9'

def digitVal (c : Char) : Nat := c.toNat - 48

def isDigitChar (c : Char) : Bool := decide ('0' ≤ c) && decide (c ≤ '9')

def isSpaceChar (c : Char) : Bool :=
  c = ' ' || c = '\t' || c = '\n' || c = '\r' || c = '\x0b' || c = '\x0c'

def natToChars (n : Nat) : Str :=
  if n = 0 then ['0'] else (Nat.digits 10 n).reverse.map digitChar

def intToChars (i : Int) : Str :=
  if i < 0 then '-' :: natToChars i.natAbs else natToChars i.natAbs

def digitsToNat (cs : Str) : Nat :=
  cs.foldl (fun a c => 10 * a + digitVal c) 0

def parseNatPart (cs : Str) : Option Nat :=
  if cs.takeWhile isDigitChar = [] then none
  else some (digitsToNat (cs.takeWhile isDigitChar))

def stollChars (cs : Str) : Option Int :=
  match cs.dropWhile isSpaceChar with
  | [] => none
  | c :: rest =>
      if c = '-' then (parseNatPart rest).map (fun n => -(Int.ofNat n))
      else if c = '+' then (parseNatPart rest).map (fun n => Int.ofNat n)
      else (parseNatPart (c :: rest)).map (fun n => Int.ofNat n)

theorem digitChar_spec (d : Nat) (hd : d < 10) :
    digitVal (digitChar d) = d ∧ isDigitChar (digitChar d) = true ∧
    digitChar d ≠ '|' ∧ digitChar d ≠ '\n' ∧ isSpaceChar (digitChar d) = false ∧
    digitChar d ≠ '-' ∧ digitChar d ≠ '+' := by
  revert hd
  revert d
  decide

theorem takeWhile_all {p : Char → Bool} (l : Str) (h : ∀ c ∈ l, p c = true) :
    l.takeWhile p = l := by
  induction l with
  | nil => rfl
  | cons c rest ih =>
      have hc : p c = true := h c (by simp)
      have hrest : rest.takeWhile p = rest :=
        ih (fun x hx => h x (List.mem_cons_of_mem _ hx))
      simp [List.takeWhile_cons, hc, hrest]

theorem natToChars_digits (n : Nat) :
    ∀ c ∈ natToChars n, isDigitChar c = true ∧ c ≠ '|' ∧ c ≠ '\n' ∧
      isSpaceChar c = false ∧ c ≠ '-' ∧ c ≠ '+' := by
  intro c hc
  unfold natToChars at hc
  by_cases h0 : n = 0
  · simp [h0] at hc
    subst hc; refine ⟨by decide, by decide, by decide, by decide, by decide, by decide⟩
  · simp [h0] at hc
    obtain ⟨d, hd, rfl⟩ := hc
    have hlt : d < 10 := Nat.digits_lt_base (by norm_num) hd
    obtain ⟨_, h2, h3, h4, h5, h6, h7⟩ := digitChar_spec d hlt
    exact ⟨h2, h3, h4, h5, h6, h7⟩

theorem digitsToNat_natToChars (n : Nat) : digitsToNat (natToChars n) = n := by
  by_cases h0 : n = 0
  · subst h0; decide
  · unfold natToChars digitsToNat
    rw [if_neg h0, List.foldl_map, List.foldl_reverse]
    have key : ∀ l : List Nat, (∀ d ∈ l, d < 10) →
        l.foldr (fun d a => 10 * a + digitVal (digitChar d)) 0 = Nat.ofDigits 10 l := by
      intro l
      induction l with
      | nil => intro _; simp [Nat.ofDigits_nil]
      | cons d rest ih =>
          intro hl
          have hd : d < 10 := hl d (by simp)
          have hrest := ih (fun x hx => hl x (List.mem_cons_of_mem _ hx))
          simp only [List.foldr_cons, hrest, Nat.ofDigits_cons]
          rw [(digitChar_spec d hd).1]
          ring
    rw [key _ (fun d hd => Nat.digits_lt_base (by norm_num) hd)]
    exact_mod_cast Nat.ofDigits_digits 10 n

theorem natToChars_ne_nil (n : Nat) : natToChars n ≠ [] := by
  unfold natToChars
  by_cases h0 : n = 0
  · simp [h0]
  · rw [if_neg h0]
    intro hcon
    have hd : Nat.digits 10 n ≠ [] := Nat.digits_ne_nil_iff_ne_zero.mpr h0
    simp at hcon
    exact hd hcon

theorem parseNatPart_natToChars (n : Nat) :
    parseNatPart (natToChars n) = some n := by
  have htake : (natToChars n).takeWhile isDigitChar = natToChars n :=
    takeWhile_all _ (fun c hc => (natToChars_digits n c hc).1)
  unfold parseNatPart
  rw [htake, if_neg (natToChars_ne_nil n), digitsToNat_natToChars]

theorem stollChars_cons (c : Char) (l : Str) (h : isSpaceChar c = false) :
    stollChars (c :: l) =
      (if c = '-' then (parseNatPart l).map (fun n => -(Int.ofNat n))
       else if c = '+' then (parseNatPart l).map (fun n => Int.ofNat n)
       else (parseNatPart (c :: l)).map (fun n => Int.ofNat n)) := by
  unfold stollChars
  rw [List.dropWhile_cons]
  simp [h]

theorem stollChars_intToChars (i : Int) : stollChars (intToChars i) = some i := by
  have hall := natToChars_digits i.natAbs
  have hne : natToChars i.natAbs ≠ [] := natToChars_ne_nil i.natAbs
  by_cases hneg : i < 0
  · unfold intToChars
    rw [if_pos hneg]
    rw [stollChars_cons _ _ (by decide)]
    rw [if_pos rfl, parseNatPart_natToChars]
    simp only [Option.map_some']
    congr 1
    simp only [Int.ofNat_eq_natCast]
    omega
  · unfold intToChars
    rw [if_neg hneg]
    cases hcs : natToChars i.natAbs with
    | nil => exact absurd hcs hne
    | cons c rest =>
        have hc := hall c (by rw [hcs]; simp)
        rw [stollChars_cons _ _ hc.2.2.2.1]
        rw [if_neg hc.2.2.2.2.1, if_neg hc.2.2.2.2.2]
        rw [← hcs, parseNatPart_natToChars]
        simp only [Option.map_some']
        congr 1
        simp only [Int.ofNat_eq_natCast]
        omega

/-! ### Lines and pipe-delimited records

`splitLines` models repeated `std::getline` over the file contents (lines
are returned without their terminating newline; a file ending without a
final newline still yields its last partial line).  `splitFirst` models
`line.find('|')` followed by the two `substr` calls: it returns the part
before the first pipe and everything after it, or `none` when the line has
no pipe (`find` returned `npos`). -/

def splitLines : Str → List Str
  | [] => []
  | c :: cs =>
      if c = '\n' then [] :: splitLines cs
      else
        match splitLines cs with
        | [] => [[c]]
        | l :: ls => (c :: l) :: ls

def splitFirst : Str → Option (Str × Str)
  | [] => none
  | c :: cs =>
      if c = '|' then some ([], cs)
      else
        match splitFirst cs with
        | none => none
        | some (a, b) => some (c :: a, b)

theorem splitLines_append (l rest : Str) (h : '\n' ∉ l) :
    splitLines (l ++ '\n' :: rest) = l :: splitLines rest := by
  induction l with
  | nil => simp [splitLines]
  | cons c cs ih =>
      have hc : c ≠ '\n' := fun hcon => h (by simp [hcon])
      have hcs : '\n' ∉ cs := fun hcon => h (by simp [hcon])
      have hrec : splitLines (cs.append ('\n' :: rest)) = cs :: splitLines rest := ih hcs
      simp only [List.cons_append, splitLines, hc, if_false]
      rw [hrec]

theorem splitFirst_append (a b : Str) (h : '|' ∉ a) :
    splitFirst (a ++ '|' :: b) = some (a, b) := by
  induction a with
  | nil => simp [splitFirst]
  | cons c cs ih =>
      have hc : c ≠ '|' := fun hcon => h (by simp [hcon])
      have hcs : '|' ∉ cs := fun hcon => h (by simp [hcon])
      have hrec : splitFirst (cs.append ('|' :: b)) = some (cs, b) := ih hcs
      simp only [List.cons_append, splitFirst, hc, if_false]
      rw [hrec]

theorem splitFirst_none (a : Str) (h : '|' ∉ a) : splitFirst a = none := by
  induction a with
  | nil => rfl
  | cons c cs ih =>
      have hc : c ≠ '|' := fun hcon => h (by simp [hcon])
      have hcs : '|' ∉ cs := fun hcon => h (by simp [hcon])
      simp only [splitFirst, hc, if_false, ih hcs]

theorem intToChars_no_pipe_newline (i : Int) :
    '|' ∉ intToChars i ∧ '\n' ∉ intToChars i := by
  unfold intToChars
  by_cases hneg : i < 0
  · rw [if_pos hneg]
    constructor
    · intro hmem
      rcases List.mem_cons.mp hmem with h | h
      · exact absurd h.symm (by decide)
      · exact (natToChars_digits _ _ h).2.1 rfl
    · intro hmem
      rcases List.mem_cons.mp hmem with h | h
      · exact absurd h.symm (by decide)
      · exact (natToChars_digits _ _ h).2.2.1 rfl
  · rw [if_neg hneg]
    exact ⟨fun hmem => (natToChars_digits _ _ hmem).2.1 rfl,
           fun hmem => (natToChars_digits _ _ hmem).2.2.1 rfl⟩

/-! ### phase2.cpp: FileMetadata and the manifest (ManifestManager)

The manifest is `std::map<string, FileMetadata>` keyed by the source
relative path.  `Save` writes one `path|hash|size|timestamp` line per entry
(in map iteration order); `Load` clears the map and re-parses the file. -/

structure FileMetadata where
  hash : Str
  size : Int
  lastModified : Int
deriving DecidableEq, Repr

abbrev Manifest := List (Str × FileMetadata)

/-- One serialized manifest line: `filepath|hash|size|timestamp`. -/
def manifestLine (p : Str) (m : FileMetadata) : Str :=
  p ++ '|' :: (m.hash ++ '|' :: (intToChars m.size ++ '|' :: intToChars m.lastModified))

/-- `ManifestManager::Save`: the byte content written to the manifest file
(each entry's line followed by a newline). -/
def saveManifestChars (man : Manifest) : Str :=
  (man.map (fun e => manifestLine e.1 e.2 ++ ['\n'])).flatten

/-- Does the line contain the three pipe delimiters that
`ManifestManager::Load` requires (`pos1`, `pos2`, `pos3` all found)? -/
def manifestLineDelims (line : Str) : Bool :=
  match splitFirst line with
  | none => false
  | some (_, r1) =>
      match splitFirst r1 with
      | none => false
      | some (_, r2) => (splitFirst r2).isSome

/-- `ManifestManager::Load`, parsing loop over the lines of the file.
Blank lines are skipped; a line missing one of the three delimiters is
skipped; a fully delimited line feeds its third and fourth fields to
`std::stoll`, whose exception (modelled as `none`) is uncaught and aborts
the whole load. -/
def loadManifestLines (acc : Manifest) : List Str → Option Manifest
  | [] => some acc
  | line :: rest =>
      if line = [] then loadManifestLines acc rest
      else
        match splitFirst line with
        | none => loadManifestLines acc rest
        | some (p, r1) =>
            match splitFirst r1 with
            | none => loadManifestLines acc rest
            | some (h, r2) =>
                match splitFirst r2 with
                | none => loadManifestLines acc rest
                | some (szS, tmS) =>
                    match stollChars szS with
                    | none => none
                    | some sz =>
                        match stollChars tmS with
                        | none => none
                        | some tm =>
                            loadManifestLines (mapInsert acc p ⟨h, sz, tm⟩) rest

/-- `ManifestManager::Load` given the file's byte content. -/
def loadManifestChars (file : Str) : Option Manifest :=
  loadManifestLines [] (splitLines file)

/-- `ManifestManager::HasFile`. -/
def HasFile (man : Manifest) (p : Str) : Bool := (mapFind man p).isSome

/-- Default-constructed `FileMetadata` produced by `manifest[filepath]` on
an absent key: empty hash string, value-initialized numeric fields. -/
def defaultMeta : FileMetadata := ⟨[], 0, 0⟩

/-- `ManifestManager::GetFileMetadata`: `return manifest[filepath];`.
`std::map::operator[]` inserts a default-constructed value when the key is
absent, so the call returns the (possibly fresh) metadata together with the
possibly-grown map. -/
def GetFileMetadata (man : Manifest) (p : Str) : FileMetadata × Manifest :=
  match mapFind man p with
  | some v => (v, man)
  | none => (defaultMeta, mapInsert man p defaultMeta)

/-- `ManifestManager::UpdateFile`. -/
def UpdateFile (man : Manifest) (p : Str) (m : FileMetadata) : Manifest :=
  mapInsert man p m

/-- `ManifestManager::GetFileCount` (`manifest.size()`). -/
def GetFileCount (man : Manifest) : Nat := man.length

/-! ### phase3.cpp: deduplication store and index

`DeduplicationStore` keeps `referenceCount : map<string,int>` in memory;
blobs live on disk at `<store>/<hash>.bin`, modelled as the list of hashes
that currently have a blob.  `DeduplicationIndex` is
`map<string,string>` (filepath to hash) persisted as `path|hash` lines. -/

abbrev RefCount := List (Str × Int)

abbrev DedupIndex := List (Str × Str)

/-- `DeduplicationStore::GetReferenceCount`: the stored count, or 0 if the
hash is untracked. -/
def GetReferenceCount (rc : RefCount) (h : Str) : Int :=
  match mapFind rc h with
  | some n => n
  | none => 0

/-- `DeduplicationStore::IncrementReference`: `referenceCount[hash]++`
(`operator[]` default-inserts 0 for an absent key, then increments). -/
def IncrementReference (rc : RefCount) (h : Str) : RefCount :=
  mapInsert rc h (GetReferenceCount rc h + 1)

/-- Reference-count effect of `DeduplicationStore::StoreContent` after a
successful blob copy: `referenceCount[hash] = 1`. -/
def storeContentRefCount (rc : RefCount) (h : Str) : RefCount :=
  mapInsert rc h 1

/-- `DeduplicationStore::LoadReferenceCountsFromIndex`: clear the counts,
then `referenceCount[entry.second]++` for every index entry. -/
def LoadReferenceCountsFromIndex (idx : DedupIndex) : RefCount :=
  idx.foldl (fun rc e => IncrementReference rc e.2) []

/-- `DeduplicationStore::ContentExists`: is a blob present for this hash? -/
def ContentExists (blobs : List Str) (h : Str) : Bool := blobs.contains h

/-- `DeduplicationIndex::AddFile`. -/
def AddFile (idx : DedupIndex) (p h : Str) : DedupIndex := mapInsert idx p h

/-- `DeduplicationIndex::GetHash`: the stored hash, or "" if absent. -/
def GetHash (idx : DedupIndex) (p : Str) : Str :=
  match mapFind idx p with
  | some h => h
  | none => []

/-- One serialized index line: `filepath|hash`. -/
def indexLine (p h : Str) : Str := p ++ '|' :: h

/-- `DeduplicationIndex::Save`: the byte content written to the index file. -/
def saveIndexChars (idx : DedupIndex) : Str :=
  (idx.map (fun e => indexLine e.1 e.2 ++ ['\n'])).flatten

/-- `DeduplicationIndex::Load`, parsing loop: blank lines skipped, lines
without a pipe skipped, everything after the first pipe is the hash.  No
operation can fail, so the load is total. -/
def loadIndexLines (acc : DedupIndex) : List Str → DedupIndex
  | [] => acc
  | line :: rest =>
      if line = [] then loadIndexLines acc rest
      else
        match splitFirst line with
        | none => loadIndexLines acc rest
        | some (p, h) => loadIndexLines (mapInsert acc p h) rest

/-- `DeduplicationIndex::Load` given the file's byte content. -/
def loadIndexChars (file : Str) : DedupIndex :=
  loadIndexLines [] (splitLines file)

/-! ### Round-trip lemmas for save followed by load -/

theorem mapFind_append {α : Type} (a b : List (Str × α)) (k : Str) :
    mapFind (a ++ b) k =
      match mapFind a k with
      | some v => some v
      | none => mapFind b k := by
  induction a with
  | nil => simp [mapFind]
  | cons hd tl ih =>
      obtain ⟨k', v'⟩ := hd
      by_cases h1 : k' = k <;> simp [mapFind, h1, ih]

theorem manifestLine_ne_nil (p : Str) (m : FileMetadata) :
    manifestLine p m ≠ [] := by
  unfold manifestLine
  cases p <;> simp

theorem indexLine_ne_nil (p h : Str) : indexLine p h ≠ [] := by
  unfold indexLine
  cases p <;> simp

theorem manifestLine_no_newline (p : Str) (m : FileMetadata)
    (hp : '\n' ∉ p) (hh : '\n' ∉ m.hash) : '\n' ∉ manifestLine p m := by
  unfold manifestLine
  intro hmem
  simp only [List.mem_append, List.mem_cons] at hmem
  rcases hmem with h | h | h | h | h | h | h
  · exact hp h
  · exact absurd h (by decide)
  · exact hh h
  · exact absurd h (by decide)
  · exact (intToChars_no_pipe_newline m.size).2 h
  · exact absurd h (by decide)
  · exact (intToChars_no_pipe_newline m.lastModified).2 h

theorem indexLine_no_newline (p h : Str)
    (hp : '\n' ∉ p) (hh : '\n' ∉ h) : '\n' ∉ indexLine p h := by
  unfold indexLine
  intro hmem
  simp only [List.mem_append, List.mem_cons] at hmem
  rcases hmem with hc | hc | hc
  · exact hp hc
  · exact absurd hc (by decide)
  · exact hh hc

theorem splitLines_save_manifest (man : Manifest)
    (hgood : ∀ e ∈ man, '\n' ∉ e.1 ∧ '\n' ∉ e.2.hash) :
    splitLines (saveManifestChars man) = man.map (fun e => manifestLine e.1 e.2) := by
  induction man with
  | nil => rfl
  | cons e rest ih =>
      obtain ⟨p, m⟩ := e
      have hg := hgood (p, m) (by simp)
      have hrest := ih (fun x hx => hgood x (List.mem_cons_of_mem _ hx))
      unfold saveManifestChars
      simp only [List.map_cons, List.flatten_cons, List.append_assoc, List.singleton_append]
      rw [splitLines_append _ _ (manifestLine_no_newline p m hg.1 hg.2)]
      unfold saveManifestChars at hrest
      rw [hrest]

theorem splitLines_save_index (idx : DedupIndex)
    (hgood : ∀ e ∈ idx, '\n' ∉ e.1 ∧ '\n' ∉ e.2) :
    splitLines (saveIndexChars idx) = idx.map (fun e => indexLine e.1 e.2) := by
  induction idx with
  | nil => rfl
  | cons e rest ih =>
      obtain ⟨p, h⟩ := e
      have hg := hgood (p, h) (by simp)
      have hrest := ih (fun x hx => hgood x (List.mem_cons_of_mem _ hx))
      unfold saveIndexChars
      simp only [List.map_cons, List.flatten_cons, List.append_assoc, List.singleton_append]
      rw [splitLines_append _ _ (indexLine_no_newline p h hg.1 hg.2)]
      unfold saveIndexChars at hrest
      rw [hrest]

theorem loadManifestLines_save (man : Manifest) : ∀ acc : Manifest,
    (man.map Prod.fst).Nodup →
    (∀ e ∈ man, mapFind acc e.1 = none) →
    (∀ e ∈ man, '|' ∉ e.1 ∧ '|' ∉ e.2.hash) →
    loadManifestLines acc (man.map (fun e => manifestLine e.1 e.2)) = some (acc ++ man) := by
  induction man with
  | nil => intro acc _ _ _; simp [loadManifestLines]
  | cons e rest ih =>
      intro acc hnodup hdisj hgood
      obtain ⟨p, m⟩ := e
      have hg := hgood (p, m) (by simp)
      have hs1 : splitFirst (manifestLine p m) =
          some (p, m.hash ++ '|' :: (intToChars m.size ++ '|' :: intToChars m.lastModified)) :=
        splitFirst_append _ _ hg.1
      have hs2 : splitFirst (m.hash ++ '|' :: (intToChars m.size ++ '|' :: intToChars m.lastModified)) =
          some (m.hash, intToChars m.size ++ '|' :: intToChars m.lastModified) :=
        splitFirst_append _ _ hg.2
      have hs3 : splitFirst (intToChars m.size ++ '|' :: intToChars m.lastModified) =
          some (intToChars m.size, intToChars m.lastModified) :=
        splitFirst_append _ _ (intToChars_no_pipe_newline m.size).1
      have hfind : mapFind acc p = none := hdisj (p, m) (by simp)
      have hnotin : p ∉ rest.map Prod.fst := by
        simp only [List.map_cons, List.nodup_cons] at hnodup
        exact hnodup.1
      simp only [List.map_cons, loadManifestLines, if_neg (manifestLine_ne_nil p m),
        hs1, hs2, hs3, stollChars_intToChars]
      have hins : mapInsert acc p ⟨m.hash, m.size, m.lastModified⟩ = acc ++ [(p, m)] :=
        mapInsert_absent acc p m hfind
      rw [hins]
      have hih := ih (acc ++ [(p, m)])
        (by simp only [List.map_cons, List.nodup_cons] at hnodup; exact hnodup.2)
        (by
          intro x hx
          have h1 : mapFind acc x.1 = none := hdisj x (List.mem_cons_of_mem _ hx)
          have h2 : x.1 ≠ p := by
            intro hcon
            exact hnotin (by rw [← hcon]; exact List.mem_map_of_mem Prod.fst hx)
          have h2s : ¬ p = x.1 := fun hcon => h2 hcon.symm
          rw [mapFind_append, h1]
          simp [mapFind, h2s])
        (fun x hx => hgood x (List.mem_cons_of_mem _ hx))
      rw [hih]
      simp

theorem loadIndexLines_save (idx : DedupIndex) : ∀ acc : DedupIndex,
    (idx.map Prod.fst).Nodup →
    (∀ e ∈ idx, mapFind acc e.1 = none) →
    (∀ e ∈ idx, '|' ∉ e.1) →
    loadIndexLines acc (idx.map (fun e => indexLine e.1 e.2)) = acc ++ idx := by
  induction idx with
  | nil => intro acc _ _ _; simp [loadIndexLines]
  | cons e rest ih =>
      intro acc hnodup hdisj hgood
      obtain ⟨p, h⟩ := e
      have hg := hgood (p, h) (by simp)
      have hs1 : splitFirst (indexLine p h) = some (p, h) := splitFirst_append _ _ hg
      have hfind : mapFind acc p = none := hdisj (p, h) (by simp)
      have hnotin : p ∉ rest.map Prod.fst := by
        simp only [List.map_cons, List.nodup_cons] at hnodup
        exact hnodup.1
      simp only [List.map_cons, loadIndexLines, if_neg (indexLine_ne_nil p h), hs1]
      rw [mapInsert_absent acc p h hfind]
      have hih := ih (acc ++ [(p, h)])
        (by simp only [List.map_cons, List.nodup_cons] at hnodup; exact hnodup.2)
        (by
          intro x hx
          have h1 : mapFind acc x.1 = none := hdisj x (List.mem_cons_of_mem _ hx)
          have h2 : x.1 ≠ p := by
            intro hcon
            exact hnotin (by rw [← hcon]; exact List.mem_map_of_mem Prod.fst hx)
          have h2s : ¬ p = x.1 := fun hcon => h2 hcon.symm
          rw [mapFind_append, h1]
          simp [mapFind, h2s])
        (fun x hx => hgood x (List.mem_cons_of_mem _ hx))
      rw [hih]
      simp

/-! ### phase2.cpp: change detection and per-file processing

`BackupStats` of phase2 (the fields the incremental walk touches).
`ShouldCopyFile` takes the hash that `FileHasher::CalculateHash` would
return for the source file as the oracle argument `computedHash`; the
`hashed` flag records whether that call was actually made. -/

structure Stats2 where
  filesProcessed : Nat
  filesSkipped : Nat
  filesCopied : Nat
  filesNew : Nat
  filesModified : Nat
  directoriesCreated : Nat
  errors : Nat
  totalBytes : Int
  bytesCopied : Int
deriving DecidableEq, Repr

def stats2Zero : Stats2 := ⟨0, 0, 0, 0, 0, 0, 0, 0, 0⟩

structure ShouldCopyOut where
  copy : Bool
  currentHash : Str
  man : Manifest
  st : Stats2
  hashed : Bool
deriving DecidableEq, Repr

/-- `IncrementalBackup::ShouldCopyFile` (phase2.cpp:270-311).  Returns the
copy decision, the resolved `currentHash`, the manifest and statistics after
the call, and whether `CalculateHash` was invoked. -/
def ShouldCopyFile (incrementalMode : Bool) (computedHash : Str)
    (relativePath : Str) (fileSize : Int) (fileTime : Int)
    (man : Manifest) (st : Stats2) : ShouldCopyOut :=
  if incrementalMode = false then
    ⟨true, computedHash, man, st, true⟩
  else if HasFile man relativePath = false then
    ⟨true, computedHash, man, { st with filesNew := st.filesNew + 1 }, true⟩
  else
    let pr := GetFileMetadata man relativePath
    let oldMeta := pr.1
    let man1 := pr.2
    if oldMeta.size ≠ fileSize ∨ oldMeta.lastModified ≠ fileTime then
      if computedHash ≠ oldMeta.hash then
        ⟨true, computedHash, man1, { st with filesModified := st.filesModified + 1 }, true⟩
      else
        ⟨false, computedHash, man1, { st with filesSkipped := st.filesSkipped + 1 }, true⟩
    else
      ⟨false, oldMeta.hash, man1, { st with filesSkipped := st.filesSkipped + 1 }, false⟩

/-- The non-directory branch of `IncrementalBackup::BackupDirectory`
(phase2.cpp:347-380): bump `filesProcessed` and `totalBytes`, consult
`ShouldCopyFile`, then either attempt `CopyFileA` (`copyOk` oracle) and on
success update the manifest, or record an error and leave the manifest
alone; a skipped file still refreshes its manifest entry. -/
def processFile2 (incrementalMode : Bool) (computedHash : Str) (copyOk : Bool)
    (relativePath : Str) (fileSize : Int) (fileTime : Int)
    (man : Manifest) (st : Stats2) : Manifest × Stats2 :=
  let st0 := { st with filesProcessed := st.filesProcessed + 1 }
  let st1 := { st0 with totalBytes := st0.totalBytes + fileSize }
  let r := ShouldCopyFile incrementalMode computedHash relativePath fileSize fileTime man st1
  if r.copy then
    if copyOk then
      (UpdateFile r.man relativePath ⟨r.currentHash, fileSize, fileTime⟩,
       { r.st with filesCopied := r.st.filesCopied + 1,
                   bytesCopied := r.st.bytesCopied + fileSize })
    else
      (r.man, { r.st with errors := r.st.errors + 1 })
  else
    (UpdateFile r.man relativePath ⟨r.currentHash, fileSize, fileTime⟩, r.st)

/-! ### phase3.cpp: the deduplicating walk

A source tree is a list of `FsEntry`.  A file carries its byte content,
its size and a `copyOk` oracle (would `CopyFileA` into the store succeed);
a directory carries a `listOk` oracle (would `FindFirstFileA` succeed), a
`DirOutcome` for `CreateDestDirectory` on its destination mirror, and its
children.  `hashOf` is the `FileHasher::CalculateHash` oracle as a function
of the file's content; it returns `[]` exactly when hashing would fail. -/

inductive DirOutcome where
  | existed
  | created
  | failed
deriving DecidableEq, Repr

structure Stats3 where
  filesProcessed : Nat
  filesCopied : Nat
  filesDeduped : Nat
  directoriesCreated : Nat
  errors : Nat
  totalBytes : Int
  bytesCopied : Int
  bytesDeduplicated : Int
deriving DecidableEq, Repr

def stats3Zero : Stats3 := ⟨0, 0, 0, 0, 0, 0, 0, 0⟩

structure P3State where
  blobs : List Str
  refCount : RefCount
  index : DedupIndex
  stats : Stats3
deriving DecidableEq, Repr

inductive FsEntry where
  | file (name : Str) (content : Str) (size : Int) (copyOk : Bool)
  | dir (name : Str) (listOk : Bool) (mkOutcome : DirOutcome) (entries : List FsEntry)

mutual

/-- Processing of one directory entry inside the loop of
`DeduplicationBackup::BackupDirectory` (phase3.cpp:386-437).  For a
subdirectory this inlines the body of the recursive `BackupDirectory`
call, whose boolean result the caller discards. -/
def walkEntry (hashOf : Str → Str) (base : Str) (s : P3State) : FsEntry → P3State
  | .file name content size copyOk =>
      let rel := base ++ name
      let st1 := { s.stats with filesProcessed := s.stats.filesProcessed + 1,
                                totalBytes := s.stats.totalBytes + size }
      let fileHash := hashOf content
      if fileHash = [] then
        { s with stats := { st1 with errors := st1.errors + 1 } }
      else if ContentExists s.blobs fileHash then
        { s with
          stats := { st1 with filesDeduped := st1.filesDeduped + 1,
                              bytesDeduplicated := st1.bytesDeduplicated + size },
          refCount := IncrementReference s.refCount fileHash,
          index := AddFile s.index rel fileHash }
      else if copyOk then
        { s with
          blobs := fileHash :: s.blobs,
          refCount := storeContentRefCount s.refCount fileHash,
          stats := { st1 with filesCopied := st1.filesCopied + 1,
                              bytesCopied := st1.bytesCopied + size },
          index := AddFile s.index rel fileHash }
      else
        { s with stats := { st1 with errors := st1.errors + 1 } }
  | .dir name listOk mkOut entries =>
      let s1 := { s with stats := { s.stats with filesProcessed := s.stats.filesProcessed + 1 } }
      if listOk = false then
        { s1 with stats := { s1.stats with errors := s1.stats.errors + 1 } }
      else
        match mkOut with
        | .failed => { s1 with stats := { s1.stats with errors := s1.stats.errors + 1 } }
        | .existed => walkEntries hashOf (base ++ name ++ ['\\']) s1 entries
        | .created =>
            walkEntries hashOf (base ++ name ++ ['\\'])
              { s1 with stats := { s1.stats with
                  directoriesCreated := s1.stats.directoriesCreated + 1 } } entries

/-- The entry loop of `BackupDirectory` ("." and ".." are never yielded by
the model). -/
def walkEntries (hashOf : Str → Str) (base : Str) (s : P3State) : List FsEntry → P3State
  | [] => s
  | e :: rest => walkEntries hashOf base (walkEntry hashOf base s e) rest

end

/-- `DeduplicationBackup::BackupDirectory` for the root call from
`StartBackup` (phase3.cpp:368-442), whose boolean result is the run
outcome: false when the root cannot be enumerated or the destination root
cannot be created, true once the entry loop runs. -/
def BackupDirectory3 (hashOf : Str → Str) (listOk : Bool) (mkOut : DirOutcome)
    (entries : List FsEntry) (s : P3State) : P3State × Bool :=
  if listOk = false then
    ({ s with stats := { s.stats with errors := s.stats.errors + 1 } }, false)
  else
    match mkOut with
    | .failed => ({ s with stats := { s.stats with errors := s.stats.errors + 1 } }, false)
    | .existed => (walkEntries hashOf [] s entries, true)
    | .created =>
        (walkEntries hashOf []
          { s with stats := { s.stats with
              directoriesCreated := s.stats.directoriesCreated + 1 } } entries, true)

/-- Environment of one `DeduplicationBackup::StartBackup` run.
`parentOutcome` is the destination root handled by
`DeduplicationStore::Initialize` (attribute check plus `CreateDirectoryA`,
where `failed` means creation failed with an error other than
already-exists); `storeOutcome` likewise for `.dedup_store`;
`indexFile` is the content of `.dedup_index.txt` when the file opens;
`preBlobs` are the fingerprints already present in the store on disk. -/
structure P3Env where
  sourceExists : Bool
  sourceIsDir : Bool
  parentOutcome : DirOutcome
  storeOutcome : DirOutcome
  indexFile : Option Str
  preBlobs : List Str
  rootListOk : Bool
  rootMkOutcome : DirOutcome
  rootEntries : List FsEntry

def countCreated : DirOutcome → Nat
  | .created => 1
  | _ => 0

/-- Observable outcome of `StartBackup`: the returned boolean, how many
destination directories `DeduplicationStore::Initialize` physically
created, whether `index.Save()` was reached, and the final in-memory
state. -/
structure RunResult where
  success : Bool
  initDirsCreated : Nat
  saveAttempted : Bool
  finalState : P3State

/-- `DeduplicationBackup::StartBackup` (phase3.cpp:451-498): initialize the
store (which touches the destination), load the index and rebuild the
reference counts, only then validate the source root, then walk and save. -/
def StartBackup3 (hashOf : Str → Str) (env : P3Env) : RunResult :=
  if env.parentOutcome = .failed then
    ⟨false, 0, false, ⟨env.preBlobs, [], [], stats3Zero⟩⟩
  else if env.storeOutcome = .failed then
    ⟨false, countCreated env.parentOutcome, false, ⟨env.preBlobs, [], [], stats3Zero⟩⟩
  else
    let created := countCreated env.parentOutcome + countCreated env.storeOutcome
    let idx : DedupIndex :=
      match env.indexFile with
      | none => []
      | some content => loadIndexChars content
    let rc : RefCount :=
      match env.indexFile with
      | none => []
      | some content => LoadReferenceCountsFromIndex (loadIndexChars content)
    let s0 : P3State := ⟨env.preBlobs, rc, idx, stats3Zero⟩
    if env.sourceExists = false then ⟨false, created, false, s0⟩
    else if env.sourceIsDir = false then ⟨false, created, false, s0⟩
    else
      let r := BackupDirectory3 hashOf env.rootListOk env.rootMkOutcome env.rootEntries s0
      ⟨r.2, created, true, r.1⟩

/-! ### Helper lemmas about reference counts -/

theorem getRef_incr (rc : RefCount) (h f : Str) :
    GetReferenceCount (IncrementReference rc h) f =
      if h = f then GetReferenceCount rc f + 1 else GetReferenceCount rc f := by
  unfold IncrementReference GetReferenceCount
  rw [mapFind_mapInsert]
  by_cases hf : h = f
  · subst hf; simp
  · simp [hf]

theorem getRef_store (rc : RefCount) (h f : Str) :
    GetReferenceCount (storeContentRefCount rc h) f =
      if h = f then 1 else GetReferenceCount rc f := by
  unfold storeContentRefCount GetReferenceCount
  rw [mapFind_mapInsert]
  by_cases hf : h = f
  · subst hf; simp
  · simp [hf]

theorem getRef_foldl_incr (l : DedupIndex) : ∀ rc : RefCount, ∀ f : Str,
    GetReferenceCount (l.foldl (fun rc e => IncrementReference rc e.2) rc) f =
      GetReferenceCount rc f + (l.countP (fun e => decide (e.2 = f)) : Int) := by
  induction l with
  | nil => intro rc f; simp
  | cons e rest ih =>
      intro rc f
      rw [List.foldl_cons, ih, getRef_incr, List.countP_cons]
      by_cases hf : e.2 = f
      · simp [hf]; ring
      · simp [hf]

/-- C6: after `LoadReferenceCountsFromIndex`, the count of every
fingerprint equals the number of index entries whose hash is that
fingerprint, and `GetReferenceCount` returns 0 for any untracked
fingerprint of any store state. -/
theorem C6_rebuild_counts (idx : DedupIndex) (f : Str) :
    GetReferenceCount (LoadReferenceCountsFromIndex idx) f =
      (idx.countP (fun e => decide (e.2 = f)) : Int) ∧
    (∀ rc : RefCount, ∀ g : Str, mapFind rc g = none → GetReferenceCount rc g = 0) := by
  constructor
  · unfold LoadReferenceCountsFromIndex
    rw [getRef_foldl_incr]
    simp [GetReferenceCount, mapFind]
  · intro rc g hg
    unfold GetReferenceCount
    rw [hg]

/-- Witness for C6 at a concrete index: two entries share a fingerprint. -/
theorem C6_witness :
    GetReferenceCount (LoadReferenceCountsFromIndex [(['a'], ['h']), (['b'], ['h'])]) ['h'] = 2 ∧
    GetReferenceCount ([(['h'], 5)] : RefCount) ['g'] = 0 := by
  constructor
  · rw [(C6_rebuild_counts [(['a'], ['h']), (['b'], ['h'])] ['h']).1]
    decide
  · exact (C6_rebuild_counts [] ['h']).2 [(['h'], 5)] ['g'] (by decide)

/-- C10: `IncrementReference` adds exactly one to the given fingerprint's
count (creating a count of 1 from the untracked state, with no
precondition that a blob exists), leaves every other fingerprint's count
unchanged, and no store operation (`IncrementReference`, the
`referenceCount[hash] = 1` of `StoreContent`, or the startup rebuild) can
produce a negative reference count. -/
theorem C10_incrementReference (rc : RefCount) (h g : Str) (idx : DedupIndex) :
    GetReferenceCount (IncrementReference rc h) h = GetReferenceCount rc h + 1 ∧
    (g ≠ h → GetReferenceCount (IncrementReference rc h) g = GetReferenceCount rc g) ∧
    (mapFind rc h = none → GetReferenceCount (IncrementReference rc h) h = 1) ∧
    ((∀ f, 0 ≤ GetReferenceCount rc f) →
      (∀ f, 0 ≤ GetReferenceCount (IncrementReference rc h) f) ∧
      (∀ f, 0 ≤ GetReferenceCount (storeContentRefCount rc h) f)) ∧
    (∀ f, 0 ≤ GetReferenceCount (LoadReferenceCountsFromIndex idx) f) := by
  refine ⟨?_, ?_, ?_, ?_, ?_⟩
  · rw [getRef_incr]; simp
  · intro hgh
    rw [getRef_incr, if_neg (fun hcon => hgh hcon.symm)]
  · intro hnone
    rw [getRef_incr, if_pos rfl]
    unfold GetReferenceCount
    rw [hnone]
    simp
  · intro hpos
    constructor
    · intro f
      rw [getRef_incr]
      by_cases hf : h = f
      · rw [if_pos hf]
        have := hpos f
        omega
      · rw [if_neg hf]
        exact hpos f
    · intro f
      rw [getRef_store]
      by_cases hf : h = f
      · rw [if_pos hf]; norm_num
      · rw [if_neg hf]
        exact hpos f
  · intro f
    unfold LoadReferenceCountsFromIndex
    rw [getRef_foldl_incr]
    simp [GetReferenceCount, mapFind]

/-- Witness for C10 at concrete inputs, including the untracked state. -/
theorem C10_witness :
    GetReferenceCount (IncrementReference [] ['h']) ['h'] = 1 ∧
    GetReferenceCount (IncrementReference [(['h'], 2)] ['h']) ['g'] = 0 ∧
    0 ≤ GetReferenceCount (IncrementReference [(['h'], 2)] ['h']) ['h'] := by
  have hmain := C10_incrementReference [(['h'], 2)] ['h'] ['g'] []
  refine ⟨?_, ?_, ?_⟩
  · exact (C10_incrementReference [] ['h'] ['g'] []).2.2.1 (by decide)
  · rw [hmain.2.1 (by decide)]; decide
  · have hpos : ∀ f, 0 ≤ GetReferenceCount ([(['h'], (2 : Int))]) f := by
      intro f
      unfold GetReferenceCount mapFind
      by_cases hf : ['h'] = f
      · rw [if_pos hf]
        decide
      · rw [if_neg hf]
        simp [mapFind]
    exact (hmain.2.2.2.1 hpos).1 ['h']

/-- C9: `GetFileMetadata` on an absent path default-inserts an entry with
an empty hash, growing the manifest by one; on a present path it returns
the stored metadata and leaves the manifest unchanged. -/
theorem C9_getFileMetadata (man : Manifest) (p : Str) :
    (mapFind man p = none →
      GetFileMetadata man p = (defaultMeta, mapInsert man p defaultMeta) ∧
      defaultMeta.hash = [] ∧
      GetFileCount (GetFileMetadata man p).2 = GetFileCount man + 1) ∧
    (∀ v, mapFind man p = some v → GetFileMetadata man p = (v, man)) := by
  constructor
  · intro hnone
    refine ⟨by simp [GetFileMetadata, hnone], rfl, ?_⟩
    simp only [GetFileMetadata, hnone]
    unfold GetFileCount
    exact mapInsert_length_absent man p defaultMeta hnone
  · intro v hv
    simp [GetFileMetadata, hv]

/-- Witness for C9 at a concrete manifest (one absent, one present path). -/
theorem C9_witness :
    GetFileCount (GetFileMetadata [(['a'], ⟨['h'], 1, 2⟩)] ['b']).2 = 2 ∧
    GetFileMetadata [(['a'], ⟨['h'], 1, 2⟩)] ['a'] = (⟨['h'], 1, 2⟩, [(['a'], ⟨['h'], 1, 2⟩)]) := by
  constructor
  · have := ((C9_getFileMetadata [(['a'], ⟨['h'], 1, 2⟩)] ['b']).1 (by decide)).2.2
    rw [this]
    decide
  · exact (C9_getFileMetadata [(['a'], ⟨['h'], 1, 2⟩)] ['a']).2 ⟨['h'], 1, 2⟩ (by decide)

/-- C1: in incremental mode `ShouldCopyFile` implements the three-way
algorithm — an absent path computes the fingerprint and is New (copied); a
manifest entry whose size and mtime both match is Unchanged, reusing the
old fingerprint without hashing; otherwise the fingerprint is recomputed
and the file is Unchanged (not copied) when it matches the old one, else
Modified (copied).  Classification is observed through the statistics
counters (`filesNew`/`filesSkipped`/`filesModified`) and the `hashed` flag
records whether `CalculateHash` ran. -/
theorem C1_shouldCopyFile_three_way (man : Manifest) (st : Stats2) (p : Str)
    (sz tm : Int) (h : Str) :
    (mapFind man p = none →
      ShouldCopyFile true h p sz tm man st =
        ⟨true, h, man, { st with filesNew := st.filesNew + 1 }, true⟩) ∧
    (∀ old : FileMetadata, mapFind man p = some old → old.size = sz → old.lastModified = tm →
      ShouldCopyFile true h p sz tm man st =
        ⟨false, old.hash, man, { st with filesSkipped := st.filesSkipped + 1 }, false⟩) ∧
    (∀ old : FileMetadata, mapFind man p = some old → (old.size ≠ sz ∨ old.lastModified ≠ tm) →
      (h = old.hash →
        ShouldCopyFile true h p sz tm man st =
          ⟨false, h, man, { st with filesSkipped := st.filesSkipped + 1 }, true⟩) ∧
      (h ≠ old.hash →
        ShouldCopyFile true h p sz tm man st =
          ⟨true, h, man, { st with filesModified := st.filesModified + 1 }, true⟩)) := by
  refine ⟨?_, ?_, ?_⟩
  · intro hnone
    simp [ShouldCopyFile, HasFile, hnone]
  · intro old hsome hsz htm
    simp [ShouldCopyFile, HasFile, GetFileMetadata, hsome, hsz, htm]
  · intro old hsome hdiff
    constructor
    · intro heq
      rcases hdiff with hd | hd
      · simp [ShouldCopyFile, HasFile, GetFileMetadata, hsome, hd, heq]
      · simp [ShouldCopyFile, HasFile, GetFileMetadata, hsome, hd, heq]
    · intro hne
      rcases hdiff with hd | hd
      · simp [ShouldCopyFile, HasFile, GetFileMetadata, hsome, hd, hne]
      · simp [ShouldCopyFile, HasFile, GetFileMetadata, hsome, hd, hne]

/-- Witness for C1: the three cases at concrete manifests. -/
theorem C1_witness :
    ShouldCopyFile true ['x'] ['a'] 1 2 [] stats2Zero =
      ⟨true, ['x'], [], { stats2Zero with filesNew := 1 }, true⟩ ∧
    ShouldCopyFile true ['x'] ['a'] 1 2 [(['a'], ⟨['h'], 1, 2⟩)] stats2Zero =
      ⟨false, ['h'], [(['a'], ⟨['h'], 1, 2⟩)], { stats2Zero with filesSkipped := 1 }, false⟩ ∧
    ShouldCopyFile true ['h'] ['a'] 1 3 [(['a'], ⟨['h'], 1, 2⟩)] stats2Zero =
      ⟨false, ['h'], [(['a'], ⟨['h'], 1, 2⟩)], { stats2Zero with filesSkipped := 1 }, true⟩ ∧
    ShouldCopyFile true ['x'] ['a'] 1 3 [(['a'], ⟨['h'], 1, 2⟩)] stats2Zero =
      ⟨true, ['x'], [(['a'], ⟨['h'], 1, 2⟩)], { stats2Zero with filesModified := 1 }, true⟩ := by
  refine ⟨?_, ?_, ?_, ?_⟩
  · exact (C1_shouldCopyFile_three_way [] stats2Zero ['a'] 1 2 ['x']).1 (by decide)
  · exact (C1_shouldCopyFile_three_way [(['a'], ⟨['h'], 1, 2⟩)] stats2Zero ['a'] 1 2 ['x']).2.1
      ⟨['h'], 1, 2⟩ (by decide) (by decide) (by decide)
  · exact ((C1_shouldCopyFile_three_way [(['a'], ⟨['h'], 1, 2⟩)] stats2Zero ['a'] 1 3 ['h']).2.2
      ⟨['h'], 1, 2⟩ (by decide) (by decide)).1 (by decide)
  · exact ((C1_shouldCopyFile_three_way [(['a'], ⟨['h'], 1, 2⟩)] stats2Zero ['a'] 1 3 ['x']).2.2
      ⟨['h'], 1, 2⟩ (by decide) (by decide)).2 (by decide)

theorem shouldCopyFile_man_eq (inc : Bool) (h p : Str) (sz tm : Int)
    (man : Manifest) (st : Stats2) :
    (ShouldCopyFile inc h p sz tm man st).man = man := by
  unfold ShouldCopyFile
  split
  · rfl
  · split
    · rfl
    · rename_i hinc hhas
      cases hfind : mapFind man p with
      | none => simp [HasFile, hfind] at hhas
      | some old =>
          simp only [GetFileMetadata, hfind]
          split
          · split <;> rfl
          · rfl

/-- C5: when the blob copy (phase3) or the destination file copy (phase2)
fails, the entry is skipped with the error counter incremented and the
index/manifest entry for that path is left unchanged, as are the store
contents and reference counts. -/
theorem C5_copy_fail_no_update :
    (∀ (hashOf : Str → Str) (base : Str) (s : P3State) (name content : Str) (size : Int),
      hashOf content ≠ [] →
      ContentExists s.blobs (hashOf content) = false →
        walkEntry hashOf base s (.file name content size false) =
          { s with stats := { s.stats with
              filesProcessed := s.stats.filesProcessed + 1,
              totalBytes := s.stats.totalBytes + size,
              errors := s.stats.errors + 1 } }) ∧
    (∀ (inc : Bool) (h p : Str) (sz tm : Int) (man : Manifest) (st : Stats2),
      (ShouldCopyFile inc h p sz tm man
          { st with filesProcessed := st.filesProcessed + 1,
                    totalBytes := st.totalBytes + sz }).copy = true →
        (processFile2 inc h false p sz tm man st).1 = man ∧
        (processFile2 inc h false p sz tm man st).2.errors =
          (ShouldCopyFile inc h p sz tm man
            { st with filesProcessed := st.filesProcessed + 1,
                      totalBytes := st.totalBytes + sz }).st.errors + 1) := by
  constructor
  · intro hashOf base s name content size hne hnot
    simp only [walkEntry, hne, hnot]
    simp
  · intro inc h p sz tm man st hcopy
    unfold processFile2
    simp only [hcopy, if_true, if_false]
    exact ⟨shouldCopyFile_man_eq inc h p sz tm man _, rfl⟩

/-- Witness for C5: a concrete failing copy in both phases. -/
theorem C5_witness :
    walkEntry (fun c => 'h' :: c) [] ⟨[], [], [], stats3Zero⟩
        (.file ['a'] ['x'] 7 false) =
      ⟨[], [], [], { stats3Zero with filesProcessed := 1, totalBytes := 7, errors := 1 }⟩ ∧
    (processFile2 true ['x'] false ['a'] 1 2 [] stats2Zero).1 = [] := by
  constructor
  · exact C5_copy_fail_no_update.1 (fun c => 'h' :: c) [] ⟨[], [], [], stats3Zero⟩
      ['a'] ['x'] 7 (by decide) (by decide)
  · exact (C5_copy_fail_no_update.2 true ['x'] ['a'] 1 2 [] stats2Zero (by decide)).1

/-- C2: Scenario A — two files with byte-identical content into an empty
destination: exactly one blob is stored under the shared fingerprint, its
reference count is 2, the index maps both relative paths to that
fingerprint, `filesCopied = 1` and `filesDeduped = 1`. -/
theorem C2_scenarioA (hashOf : Str → Str) (na nb c : Str) (sza szb : Int)
    (hf : hashOf c ≠ []) (hnab : na ≠ nb) :
    (StartBackup3 hashOf ⟨true, true, .created, .created, none, [], true, .existed,
        [.file na c sza true, .file nb c szb true]⟩).success = true ∧
    (StartBackup3 hashOf ⟨true, true, .created, .created, none, [], true, .existed,
        [.file na c sza true, .file nb c szb true]⟩).finalState.blobs = [hashOf c] ∧
    GetReferenceCount (StartBackup3 hashOf ⟨true, true, .created, .created, none, [], true,
        .existed, [.file na c sza true, .file nb c szb true]⟩).finalState.refCount
      (hashOf c) = 2 ∧
    mapFind (StartBackup3 hashOf ⟨true, true, .created, .created, none, [], true, .existed,
        [.file na c sza true, .file nb c szb true]⟩).finalState.index na = some (hashOf c) ∧
    mapFind (StartBackup3 hashOf ⟨true, true, .created, .created, none, [], true, .existed,
        [.file na c sza true, .file nb c szb true]⟩).finalState.index nb = some (hashOf c) ∧
    (StartBackup3 hashOf ⟨true, true, .created, .created, none, [], true, .existed,
        [.file na c sza true, .file nb c szb true]⟩).finalState.stats.filesCopied = 1 ∧
    (StartBackup3 hashOf ⟨true, true, .created, .created, none, [], true, .existed,
        [.file na c sza true, .file nb c szb true]⟩).finalState.stats.filesDeduped = 1 := by
  have hstate : StartBackup3 hashOf ⟨true, true, .created, .created, none, [], true, .existed,
      [.file na c sza true, .file nb c szb true]⟩ =
      ⟨true, 2, true,
        ⟨[hashOf c], [(hashOf c, 2)], [(na, hashOf c), (nb, hashOf c)],
         ⟨2, 1, 1, 0, 0, sza + szb, sza, szb⟩⟩⟩ := by
    unfold StartBackup3 BackupDirectory3
    simp only [countCreated, stats3Zero]
    simp [hf, hnab, ContentExists, AddFile, IncrementReference, GetReferenceCount,
      storeContentRefCount, mapInsert, mapFind, walkEntries, walkEntry]
  rw [hstate]
  refine ⟨rfl, rfl, ?_, ?_, ?_, rfl, rfl⟩
  · unfold GetReferenceCount mapFind
    simp
  · unfold mapFind
    simp
  · unfold mapFind
    rw [if_neg hnab]
    simp [mapFind]

/-- Witness for C2 at a concrete tree and hash function. -/
theorem C2_witness :
    (StartBackup3 (fun c => 'h' :: c) ⟨true, true, .created, .created, none, [], true, .existed,
        [.file ['a'] ['x'] 1 true, .file ['b'] ['x'] 1 true]⟩).success = true ∧
    GetReferenceCount (StartBackup3 (fun c => 'h' :: c) ⟨true, true, .created, .created, none,
        [], true, .existed, [.file ['a'] ['x'] 1 true, .file ['b'] ['x'] 1 true]⟩).finalState.refCount
      ['h', 'x'] = 2 ∧
    (StartBackup3 (fun c => 'h' :: c) ⟨true, true, .created, .created, none, [], true, .existed,
        [.file ['a'] ['x'] 1 true, .file ['b'] ['x'] 1 true]⟩).finalState.stats.filesCopied = 1 := by
  have h := C2_scenarioA (fun c => 'h' :: c) ['a'] ['b'] ['x'] 1 1 (by decide) (by decide)
  exact ⟨h.1, h.2.2.1, h.2.2.2.2.2.1⟩

/-- Counterexample for C3: with the source root absent (and absent
destination directories), `StartBackup` still creates two destination
directories — the destination root and `.dedup_store` — because
`DeduplicationStore::Initialize` runs before the source check, so "no
directories are created in the destination" is false. -/
theorem C3_counterexample :
    (StartBackup3 (fun c => c)
        ⟨false, false, .created, .created, none, [], true, .existed, []⟩).success = false ∧
    (StartBackup3 (fun c => c)
        ⟨false, false, .created, .created, none, [], true, .existed, []⟩).initDirsCreated = 2 ∧
    (2 : Nat) ≠ 0 := by
  refine ⟨rfl, rfl, by decide⟩

/-- C3 (amended): if the source root does not exist or is not a directory,
the run fails before any entry is processed — the statistics stay zero, no
blob is stored, and `index.Save()` is never reached — but the store
initialization that precedes the source check may already have created the
destination root and the `.dedup_store` directory. -/
theorem C3_source_missing_aborts_early (hashOf : Str → Str) (env : P3Env)
    (h : env.sourceExists = false ∨ env.sourceIsDir = false) :
    (StartBackup3 hashOf env).success = false ∧
    (StartBackup3 hashOf env).finalState.stats = stats3Zero ∧
    (StartBackup3 hashOf env).finalState.blobs = env.preBlobs ∧
    (StartBackup3 hashOf env).saveAttempted = false := by
  unfold StartBackup3
  by_cases hp : env.parentOutcome = DirOutcome.failed
  · simp [hp]
  · by_cases hs : env.storeOutcome = DirOutcome.failed
    · simp [hp, hs]
    · rcases h with h | h
      · simp [hp, hs, h]
      · by_cases he : env.sourceExists = false
        · simp [hp, hs, he]
        · simp [hp, hs, he, h]

/-- Witness for C3 (amended) at a concrete environment. -/
theorem C3_witness :
    (StartBackup3 (fun c => c)
        ⟨false, true, .existed, .existed, none, [['q']], true, .existed, []⟩).success = false ∧
    (StartBackup3 (fun c => c)
        ⟨false, true, .existed, .existed, none, [['q']], true, .existed, []⟩).finalState.blobs
      = [['q']] := by
  have h := C3_source_missing_aborts_early (fun c => c)
    ⟨false, true, .existed, .existed, none, [['q']], true, .existed, []⟩ (Or.inl rfl)
  exact ⟨h.1, h.2.2.1⟩

/-- Counterexample for C4: a run whose source root exists and is a
directory still fails as a whole when the root itself cannot be enumerated
(`FindFirstFileA` fails on the root), so "the whole run fails only if the
source root does not exist or is not a directory" is false. -/
theorem C4_counterexample :
    (StartBackup3 (fun c => c)
        ⟨true, true, .existed, .existed, none, [], false, .existed, []⟩).success = false ∧
    (⟨true, true, .existed, .existed, none, [], false, .existed, []⟩ : P3Env).sourceExists = true ∧
    (⟨true, true, .existed, .existed, none, [], false, .existed, []⟩ : P3Env).sourceIsDir = true := by
  exact ⟨rfl, rfl, rfl⟩

/-- C4 (amended): every per-entry failure below the root — an unreadable
subdirectory, a destination directory that cannot be created, a failed
hash, a failed blob copy — increments the error counter and skips only
that entry while the loop continues with the remaining entries, and the
run's success outcome is independent of the per-entry error count: after
source validation and store initialization it equals "root enumerable and
destination root creatable" (so the run can also fail for those two root
conditions, not only for a missing or non-directory source root). -/
theorem C4_per_entry_failures (hashOf : Str → Str) :
    (∀ (base : Str) (s : P3State) (e : FsEntry) (rest : List FsEntry),
      walkEntries hashOf base s (e :: rest) =
        walkEntries hashOf base (walkEntry hashOf base s e) rest) ∧
    (∀ (base : Str) (s : P3State) (name content : Str) (size : Int) (copyOk : Bool),
      hashOf content = [] →
      walkEntry hashOf base s (.file name content size copyOk) =
        { s with stats := { s.stats with
            filesProcessed := s.stats.filesProcessed + 1,
            totalBytes := s.stats.totalBytes + size,
            errors := s.stats.errors + 1 } }) ∧
    (∀ (base : Str) (s : P3State) (name content : Str) (size : Int),
      hashOf content ≠ [] →
      ContentExists s.blobs (hashOf content) = false →
      (walkEntry hashOf base s (.file name content size false)).stats.errors =
        s.stats.errors + 1 ∧
      (walkEntry hashOf base s (.file name content size false)).index = s.index ∧
      (walkEntry hashOf base s (.file name content size false)).blobs = s.blobs) ∧
    (∀ (base : Str) (s : P3State) (name : Str) (mkOut : DirOutcome) (entries : List FsEntry),
      walkEntry hashOf base s (.dir name false mkOut entries) =
        { s with stats := { s.stats with
            filesProcessed := s.stats.filesProcessed + 1,
            errors := s.stats.errors + 1 } }) ∧
    (∀ (base : Str) (s : P3State) (name : Str) (entries : List FsEntry),
      walkEntry hashOf base s (.dir name true .failed entries) =
        { s with stats := { s.stats with
            filesProcessed := s.stats.filesProcessed + 1,
            errors := s.stats.errors + 1 } }) ∧
    (∀ env : P3Env, env.sourceExists = true → env.sourceIsDir = true →
      env.parentOutcome ≠ DirOutcome.failed → env.storeOutcome ≠ DirOutcome.failed →
      (StartBackup3 hashOf env).success =
        (env.rootListOk && decide (env.rootMkOutcome ≠ DirOutcome.failed))) := by
  refine ⟨?_, ?_, ?_, ?_, ?_, ?_⟩
  · intro base s e rest
    rfl
  · intro base s name content size copyOk hnil
    simp [walkEntry, hnil]
  · intro base s name content size hne hnot
    simp [walkEntry, hne, hnot]
  · intro base s name mkOut entries
    simp [walkEntry]
  · intro base s name entries
    simp [walkEntry]
  · intro env hse hsd hp hs
    unfold StartBackup3 BackupDirectory3
    simp only [hp, hs, hse, hsd, if_false, if_true]
    by_cases hl : env.rootListOk = false
    · simp [hl]
    · have hlt : env.rootListOk = true := by
        cases hrl : env.rootListOk
        · exact absurd hrl hl
        · rfl
      cases hmk : env.rootMkOutcome <;> simp [hlt, hmk]

/-- Witness for C4 (amended) at concrete inputs. -/
theorem C4_witness :
    walkEntry (fun c => c) [] ⟨[], [], [], stats3Zero⟩ (.dir ['d'] false .existed []) =
      ⟨[], [], [], { stats3Zero with filesProcessed := 1, errors := 1 }⟩ ∧
    (StartBackup3 (fun c => c)
        ⟨true, true, .existed, .existed, none, [], true, .existed, []⟩).success = true := by
  constructor
  · exact (C4_per_entry_failures (fun c => c)).2.2.2.1 [] ⟨[], [], [], stats3Zero⟩ ['d']
      DirOutcome.existed []
  · have h := (C4_per_entry_failures (fun c => c)).2.2.2.2.2
      ⟨true, true, .existed, .existed, none, [], true, .existed, []⟩ rfl rfl
      (by decide) (by decide)
    rw [h]
    decide

/-- Counterexample for C7: a manifest whose single path contains a pipe.
Saving writes the line `a|b|7|0|0`; reloading misparses it (path `a`, hash
`b`, size picked up from the old hash field), so the path-to-fingerprint
mapping is not reproduced: the original maps `a|b` to hash `7`, the
reloaded manifest does not contain the key `a|b` at all. -/
theorem C7_counterexample :
    loadManifestChars (saveManifestChars [(['a', '|', 'b'], ⟨['7'], 0, 0⟩)]) =
      some [(['a'], ⟨['b'], 7, 0⟩)] ∧
    mapFind [(['a'], (⟨['b'], 7, 0⟩ : FileMetadata))] ['a', '|', 'b'] = none ∧
    mapFind [(['a', '|', 'b'], (⟨['7'], 0, 0⟩ : FileMetadata))] ['a', '|', 'b'] =
      some ⟨['7'], 0, 0⟩ := by
  refine ⟨by decide, by decide, by decide⟩

/-- C7 (amended): for manifests and indexes whose paths contain no pipe
and no newline and whose hashes contain no pipe (manifest) respectively no
newline (index) — all true of the states the program itself builds — and
whose keys are distinct (the `std::map` invariant), saving and reloading
reproduces exactly the same mapping, and hence the same reference counts
after a rebuild. -/
theorem C7_roundtrip (man : Manifest) (idx : DedupIndex)
    (hmn : (man.map Prod.fst).Nodup)
    (hmg : ∀ e ∈ man, '|' ∉ e.1 ∧ '\n' ∉ e.1 ∧ '|' ∉ e.2.hash ∧ '\n' ∉ e.2.hash)
    (hin : (idx.map Prod.fst).Nodup)
    (hig : ∀ e ∈ idx, '|' ∉ e.1 ∧ '\n' ∉ e.1 ∧ '\n' ∉ e.2) :
    loadManifestChars (saveManifestChars man) = some man ∧
    loadIndexChars (saveIndexChars idx) = idx ∧
    (∀ f, GetReferenceCount
        (LoadReferenceCountsFromIndex (loadIndexChars (saveIndexChars idx))) f =
      GetReferenceCount (LoadReferenceCountsFromIndex idx) f) := by
  have hidx : loadIndexChars (saveIndexChars idx) = idx := by
    unfold loadIndexChars
    rw [splitLines_save_index idx (fun e he => ⟨(hig e he).2.1, (hig e he).2.2⟩)]
    rw [loadIndexLines_save idx [] hin (fun e _ => rfl) (fun e he => (hig e he).1)]
    simp
  refine ⟨?_, hidx, ?_⟩
  · unfold loadManifestChars
    rw [splitLines_save_manifest man (fun e he => ⟨(hmg e he).2.1, (hmg e he).2.2.2⟩)]
    rw [loadManifestLines_save man [] hmn (fun e _ => rfl)
      (fun e he => ⟨(hmg e he).1, (hmg e he).2.2.1⟩)]
    simp
  · intro f
    rw [hidx]

/-- Witness for C7 (amended) at a concrete manifest and index. -/
theorem C7_witness :
    loadManifestChars (saveManifestChars [(['a'], ⟨['h'], 0, 0⟩)]) =
      some [(['a'], ⟨['h'], 0, 0⟩)] ∧
    loadIndexChars (saveIndexChars [(['a'], ['h']), (['b'], ['h'])]) =
      [(['a'], ['h']), (['b'], ['h'])] := by
  have h1 := C7_roundtrip [(['a'], ⟨['h'], 0, 0⟩)] [(['a'], ['h']), (['b'], ['h'])]
    (by decide) (by decide) (by decide) (by decide)
  exact ⟨h1.1, h1.2.1⟩

/-- Counterexample for C8: the manifest loader is fed the single fully
delimited line `a|h|x|0`; `std::stoll("x")` throws an uncaught exception
(modelled as `none`), so the load aborts instead of skipping or retaining
the line — "load never aborts or fails on malformed content" is false. -/
theorem C8_counterexample :
    loadManifestChars ['a', '|', 'h', '|', 'x', '|', '0'] = none := by
  decide

/-- C8 (amended): both loaders tolerate blank lines and silently skip any
line missing a required delimiter while retaining every fully parsed line;
the index loader is total (its parsing cannot fail, as its return type
shows), but the manifest loader aborts the whole load — an uncaught
`std::stoll` exception — when a fully delimited line's size or timestamp
field does not start with a valid integer. -/
theorem C8_load_tolerance :
    (∀ (acc : Manifest) (rest : List Str),
      loadManifestLines acc ([] :: rest) = loadManifestLines acc rest) ∧
    (∀ (acc : DedupIndex) (rest : List Str),
      loadIndexLines acc ([] :: rest) = loadIndexLines acc rest) ∧
    (∀ (acc : Manifest) (line : Str) (rest : List Str),
      line ≠ [] → manifestLineDelims line = false →
      loadManifestLines acc (line :: rest) = loadManifestLines acc rest) ∧
    (∀ (acc : DedupIndex) (line : Str) (rest : List Str),
      line ≠ [] → splitFirst line = none →
      loadIndexLines acc (line :: rest) = loadIndexLines acc rest) ∧
    (∀ (acc : Manifest) (line : Str) (rest : List Str) (p r1 h r2 szS tmS : Str)
        (sz tm : Int),
      splitFirst line = some (p, r1) → splitFirst r1 = some (h, r2) →
      splitFirst r2 = some (szS, tmS) →
      stollChars szS = some sz → stollChars tmS = some tm →
      loadManifestLines acc (line :: rest) =
        loadManifestLines (mapInsert acc p ⟨h, sz, tm⟩) rest) ∧
    (∀ (acc : DedupIndex) (line : Str) (rest : List Str) (p h : Str),
      splitFirst line = some (p, h) →
      loadIndexLines acc (line :: rest) = loadIndexLines (mapInsert acc p h) rest) ∧
    (∀ (acc : Manifest) (line : Str) (rest : List Str) (p r1 h r2 szS tmS : Str),
      splitFirst line = some (p, r1) → splitFirst r1 = some (h, r2) →
      splitFirst r2 = some (szS, tmS) →
      stollChars szS = none →
      loadManifestLines acc (line :: rest) = none) ∧
    (∀ (acc : Manifest) (line : Str) (rest : List Str) (p r1 h r2 szS tmS : Str) (sz : Int),
      splitFirst line = some (p, r1) → splitFirst r1 = some (h, r2) →
      splitFirst r2 = some (szS, tmS) →
      stollChars szS = some sz → stollChars tmS = none →
      loadManifestLines acc (line :: rest) = none) := by
  refine ⟨?_, ?_, ?_, ?_, ?_, ?_, ?_, ?_⟩
  · intro acc rest
    rfl
  · intro acc rest
    rfl
  · intro acc line rest hne hdelims
    unfold manifestLineDelims at hdelims
    conv_lhs => rw [loadManifestLines]
    rw [if_neg hne]
    cases h1 : splitFirst line with
    | none => simp [h1]
    | some pr1 =>
        obtain ⟨p, r1⟩ := pr1
        cases h2 : splitFirst r1 with
        | none => simp [h1, h2]
        | some hr2 =>
            obtain ⟨h, r2⟩ := hr2
            cases h3 : splitFirst r2 with
            | none => simp [h1, h2, h3]
            | some s4 => simp [h1, h2, h3] at hdelims
  · intro acc line rest hne hsf
    conv_lhs => rw [loadIndexLines]
    rw [if_neg hne]
    simp [hsf]
  · intro acc line rest p r1 h r2 szS tmS sz tm h1 h2 h3 h4 h5
    have hne : line ≠ [] := by
      intro hcon
      rw [hcon] at h1
      simp [splitFirst] at h1
    conv_lhs => rw [loadManifestLines]
    rw [if_neg hne]
    simp [h1, h2, h3, h4, h5]
  · intro acc line rest p h h1
    have hne : line ≠ [] := by
      intro hcon
      rw [hcon] at h1
      simp [splitFirst] at h1
    conv_lhs => rw [loadIndexLines]
    rw [if_neg hne]
    simp [h1]
  · intro acc line rest p r1 h r2 szS tmS h1 h2 h3 h4
    have hne : line ≠ [] := by
      intro hcon
      rw [hcon] at h1
      simp [splitFirst] at h1
    conv_lhs => rw [loadManifestLines]
    rw [if_neg hne]
    simp [h1, h2, h3, h4]
  · intro acc line rest p r1 h r2 szS tmS sz h1 h2 h3 h4 h5
    have hne : line ≠ [] := by
      intro hcon
      rw [hcon] at h1
      simp [splitFirst] at h1
    conv_lhs => rw [loadManifestLines]
    rw [if_neg hne]
    simp [h1, h2, h3, h4, h5]

/-- Witness for C8 (amended) at concrete lines. -/
theorem C8_witness :
    loadManifestLines [] [[], ['a'], ['a', '|', 'h', '|', '4', '|', '5']] =
      some [(['a'], ⟨['h'], 4, 5⟩)] ∧
    loadIndexLines [] [[], ['a'], ['a', '|', 'h']] = [(['a'], ['h'])] := by
  have hm := C8_load_tolerance
  constructor
  · rw [hm.1 [] [['a'], ['a', '|', 'h', '|', '4', '|', '5']]]
    rw [hm.2.2.1 [] ['a'] [['a', '|', 'h', '|', '4', '|', '5']] (by decide) (by decide)]
    rw [hm.2.2.2.2.1 [] ['a', '|', 'h', '|', '4', '|', '5'] [] ['a'] ['h', '|', '4', '|', '5']
      ['h'] ['4', '|', '5'] ['4'] ['5'] 4 5 (by decide) (by decide) (by decide) (by decide)
      (by decide)]
    decide
  · rw [hm.2.1 [] [['a'], ['a', '|', 'h']]]
    rw [hm.2.2.2.1 [] ['a'] [['a', '|', 'h']] (by decide) (by decide)]
    rw [hm.2.2.2.2.2.1 [] ['a', '|', 'h'] [] ['a'] ['h'] (by decide)]
    decide
